import Mathlib

/-!
Verification of the ai-nutrition-app backend (TypeScript) against its
natural-language specification, as a shallow embedding in Lean 4.

The embedding covers:
* `src/src/utils/password.ts` — the `Password` credential hasher
  (`toHash` / `compare`), with the external `scrypt` derivation function and
  the process-wide pepper taken as parameters, and the randomly drawn salt
  made an explicit argument;
* the data-access layer (`UserModel`, `MealModel`) with the relational store
  modelled as a list of rows and the store's behaviour (unique indexes on
  `User.email` / `User.phone`, error codes P2025/P2002) taken from the Prisma
  schema and migration;
* the `UserController` handlers, with JS response objects modelled as
  association lists so that "the body contains no password field" is a
  statement about keys;
* the Express routing table (`app.ts`, `index-route.ts`, `user-route.ts`).

JS strings are modelled as `List Char` where character-level reasoning is
needed (the hasher) and as `String` elsewhere.
-/

/-! ### Credential hasher (`src/src/utils/password.ts`)

`randomBytes(8).toString('hex')` produces the salt: the hex encoding of 8
random bytes.  `scryptAsync(password + pepper, salt, 64)` is the external
derivation; we abstract it as a function from (peppered password, salt) to a
byte list.  `buf.toString('hex')` is the hex encoding below.
-/

/-- One lowercase hexadecimal digit, as produced by Node's `toString('hex')`. -/
def hexDigit (n : Nat) : Char :=
  if n < 10 then Char.ofNat (48 + n) else Char.ofNat (87 + n)

/-- Hex encoding of one byte: high nibble then low nibble. -/
def byteToHex (b : Nat) : List Char :=
  [hexDigit (b / 16), hexDigit (b % 16)]

/-- `Buffer.toString('hex')`: hex encoding of a byte list. -/
def bufToHex : List Nat → List Char
  | [] => []
  | b :: rest => byteToHex b ++ bufToHex rest

/-- JS `s.split('.')` on a character list. -/
def splitDot : List Char → List (List Char)
  | [] => [[]]
  | c :: rest =>
    if c = '.' then [] :: splitDot rest
    else
      match splitDot rest with
      | p :: ps => (c :: p) :: ps
      | [] => [[c]]

/-- `Password.toHash`: derive bytes from `password + pepper` and the salt,
and return `buf.toString('hex') + '.' + salt`.  The per-call random salt
(`randomBytes(8).toString('hex')`) is passed explicitly. -/
def Password.toHash (scrypt : List Char → List Char → List Nat)
    (pepper password salt : List Char) : List Char :=
  bufToHex (scrypt (password ++ pepper) salt) ++ '.' :: salt

/-- `Password.compare`: split the stored digest at `'.'`, recompute the
derivation with the supplied plaintext and the recovered salt, and compare
`hashedPassword === buf.toString('hex')`.  When the split yields no salt
component the JS code passes `undefined` to `scrypt`, which rejects: that is
the `none` case. -/
def Password.compare (scrypt : List Char → List Char → List Nat)
    (pepper stored supplied : List Char) : Option Bool :=
  match splitDot stored with
  | hashedPassword :: salt :: _ =>
      some (hashedPassword == bufToHex (scrypt (supplied ++ pepper) salt))
  | _ => none

lemma hexDigit_ne_dot : ∀ n, n < 16 → hexDigit n ≠ '.' := by decide

lemma dot_not_mem_byteToHex (b : Nat) (hb : b < 256) : '.' ∉ byteToHex b := by
  have h1 : b / 16 < 16 := Nat.div_lt_of_lt_mul (by omega)
  have h2 : b % 16 < 16 := Nat.mod_lt _ (by omega)
  intro hmem
  simp only [byteToHex, List.mem_cons, List.not_mem_nil, or_false] at hmem
  rcases hmem with h | h
  · exact hexDigit_ne_dot _ h1 h.symm
  · exact hexDigit_ne_dot _ h2 h.symm

lemma dot_not_mem_bufToHex (buf : List Nat) (hb : ∀ b ∈ buf, b < 256) :
    '.' ∉ bufToHex buf := by
  induction buf with
  | nil => simp [bufToHex]
  | cons b rest ih =>
    simp only [bufToHex, List.mem_append]
    rintro (h | h)
    · exact dot_not_mem_byteToHex b (hb b (List.mem_cons_self b rest)) h
    · exact ih (fun x hx => hb x (List.mem_cons_of_mem _ hx)) h

lemma splitDot_no_dot (l : List Char) (h : '.' ∉ l) : splitDot l = [l] := by
  induction l with
  | nil => rfl
  | cons c rest ih =>
    have hc : ¬ (c = '.') := fun e => h (by simp [e])
    have hr : '.' ∉ rest := fun m => h (List.mem_cons_of_mem _ m)
    simp [splitDot, hc, ih hr]

lemma splitDot_append (a b : List Char) (h : '.' ∉ a) :
    splitDot (a ++ '.' :: b) = a :: splitDot b := by
  induction a with
  | nil => simp [splitDot]
  | cons c a' ih =>
    have hc : ¬ (c = '.') := fun e => h (by simp [e])
    have ha : '.' ∉ a' := fun m => h (List.mem_cons_of_mem _ m)
    simp [splitDot, hc, ih ha]

lemma hexDigit_injOn : ∀ a, a < 16 → ∀ b, b < 16 → hexDigit a = hexDigit b → a = b := by
  decide

lemma bufToHex_inj : ∀ xs ys : List Nat, (∀ x ∈ xs, x < 256) → (∀ y ∈ ys, y < 256) →
    bufToHex xs = bufToHex ys → xs = ys := by
  intro xs
  induction xs with
  | nil =>
    intro ys _ _ h
    cases ys with
    | nil => rfl
    | cons y ys => simp [bufToHex, byteToHex] at h
  | cons x xs ih =>
    intro ys hx hy h
    cases ys with
    | nil => simp [bufToHex, byteToHex] at h
    | cons y ys =>
      simp only [bufToHex, byteToHex, List.cons_append, List.nil_append,
        List.cons.injEq] at h
      obtain ⟨h1, h2, h3⟩ := h
      have hxb : x < 256 := hx x (List.mem_cons_self x xs)
      have hyb : y < 256 := hy y (List.mem_cons_self y ys)
      have e1 : x / 16 = y / 16 :=
        hexDigit_injOn _ (Nat.div_lt_of_lt_mul (by omega)) _
          (Nat.div_lt_of_lt_mul (by omega)) h1
      have e2 : x % 16 = y % 16 :=
        hexDigit_injOn _ (Nat.mod_lt _ (by omega)) _ (Nat.mod_lt _ (by omega)) h2
      have exy : x = y := by omega
      have erest : xs = ys :=
        ih ys (fun a ha => hx a (List.mem_cons_of_mem _ ha))
          (fun a ha => hy a (List.mem_cons_of_mem _ ha)) h3
      rw [exy, erest]

lemma bufToHex_length (buf : List Nat) : (bufToHex buf).length = 2 * buf.length := by
  induction buf with
  | nil => rfl
  | cons b rest ih => simp [bufToHex, byteToHex, ih]; omega

lemma splitDot_toHash (scrypt : List Char → List Char → List Nat)
    (pepper p salt : List Char) (hsalt : '.' ∉ salt)
    (hb : ∀ b ∈ scrypt (p ++ pepper) salt, b < 256) :
    splitDot (Password.toHash scrypt pepper p salt) =
      [bufToHex (scrypt (p ++ pepper) salt), salt] := by
  unfold Password.toHash
  rw [splitDot_append _ _ (dot_not_mem_bufToHex _ hb), splitDot_no_dot _ hsalt]

/-! ### Error taxonomy and store-level errors

`DomainError` models the application error classes (`NotFound`,
`BadRequestError`); `PrismaError` models a store-level error as observed by
`handlePrismaError` (`error.code`, `error.meta?.target`).
-/

/-- Domain errors thrown by models and controllers. -/
inductive DomainError where
  | notFound (msg : String)
  | badRequest (msg : String)
deriving DecidableEq, Repr

/-- A store-level (Prisma) error: its condition code and the
`meta?.target` field list of a uniqueness violation. -/
structure PrismaError where
  code : Option String
  metaTarget : Option (List String)
deriving DecidableEq, Repr

/-- What a model operation can fail with: a translated domain error, or the
original store-level error re-thrown unchanged. -/
inductive ModelError where
  | domain (e : DomainError)
  | store (e : PrismaError)
deriving DecidableEq, Repr

/-- Outcome of a `handlePrismaError` call followed by the caller's
`throw error`: either the handler threw a translated domain error, or it
returned and the original store error was re-thrown. -/
inductive HandleResult where
  | thrown (e : DomainError)
  | rethrown (e : PrismaError)
deriving DecidableEq, Repr

/-! ### Rows and stores (Prisma schema) -/

/-- A `User` row: `id` primary key, `email` and `phone` unique. -/
structure UserRow where
  id : String
  email : String
  name : String
  phone : String
  password : String
  createdAt : Nat
deriving DecidableEq, Repr

/-- A `Meal` row. -/
structure MealRow where
  id : String
  name : String
  calories : Int
  carbs : Int
  protein : Int
  fat : Int
  createdAt : Nat
  planId : String
deriving DecidableEq, Repr

abbrev UserStore := List UserRow
abbrev MealStore := List MealRow

/-- `CreateUserData` (user-model.ts). -/
structure CreateUserData where
  email : String
  name : String
  phone : String
  password : String
deriving DecidableEq, Repr

/-- `UpdateUserData` (user-model.ts): every field optional. -/
structure UpdateUserData where
  email : Option String
  name : Option String
  phone : Option String
  password : Option String
deriving DecidableEq, Repr

/-! ### Store queries (`prisma.user.* / prisma.meal.*`)

The store is the Postgres database described by the Prisma schema: `User.id`
primary key, `User.email` and `User.phone` unique indexes.  `findUnique`
returns the row or `null`; `create`/`update` reject with code `P2002`
(uniqueness violation, `meta.target` naming the index) or `P2025` (row to
update not found).
-/

def prismaUserFindById (s : UserStore) (id : String) : Option UserRow :=
  s.find? (fun u => u.id == id)

def prismaUserFindByEmail (s : UserStore) (email : String) : Option UserRow :=
  s.find? (fun u => u.email == email)

def prismaUserFindByPhone (s : UserStore) (phone : String) : Option UserRow :=
  s.find? (fun u => u.phone == phone)

def prismaMealFindById (s : MealStore) (id : String) : Option MealRow :=
  s.find? (fun m => m.id == id)

/-- `prisma.user.create`: insert a fresh row (`id` and `createdAt` generated
by the store), rejecting with `P2002` when the unique index on `email` or
`phone` is violated. -/
def prismaUserCreate (s : UserStore) (newId : String) (now : Nat)
    (d : CreateUserData) : Except PrismaError UserRow :=
  if s.any (fun u => u.email == d.email) then
    .error ⟨some "P2002", some ["email"]⟩
  else if s.any (fun u => u.phone == d.phone) then
    .error ⟨some "P2002", some ["phone"]⟩
  else
    .ok ⟨newId, d.email, d.name, d.phone, d.password, now⟩

/-- Overwrite a row with the supplied fields of a partial update payload. -/
def applyUserUpdate (u : UserRow) (d : UpdateUserData) : UserRow :=
  { u with
    email := d.email.getD u.email
    name := d.name.getD u.name
    phone := d.phone.getD u.phone
    password := d.password.getD u.password }

/-- `prisma.user.update`: reject with `P2025` when no row has the id, with
`P2002` when the updated row would violate the `email`/`phone` unique index
against another row, and otherwise return the updated row. -/
def prismaUserUpdate (s : UserStore) (id : String) (d : UpdateUserData) :
    Except PrismaError UserRow :=
  match prismaUserFindById s id with
  | none => .error ⟨some "P2025", none⟩
  | some u =>
    if s.any (fun v => v.id != id && v.email == (applyUserUpdate u d).email) then
      .error ⟨some "P2002", some ["email"]⟩
    else if s.any (fun v => v.id != id && v.phone == (applyUserUpdate u d).phone) then
      .error ⟨some "P2002", some ["phone"]⟩
    else
      .ok (applyUserUpdate u d)

/-! ### Models (`user-model.ts`, `meal-model.ts`) -/

/-- `error.meta?.target[0] || 'Field'`: the first named field of a
uniqueness violation, with the JS `||` fallback to `"Field"` when the
chain yields `undefined` or an empty (falsy) string. -/
def prismaTargetField (e : PrismaError) : String :=
  match e.metaTarget with
  | some (f :: _) => if f = "" then "Field" else f
  | _ => "Field"

/-- `UserModel.handlePrismaError`: `P2025` → `NotFound('User not found')`;
`P2002` → `BadRequestError(`${field} is already in use`)`; anything else
returns, so the caller re-throws the original error. -/
def UserModel.handlePrismaError (e : PrismaError) : HandleResult :=
  if e.code = some "P2025" then .thrown (.notFound "User not found")
  else if e.code = some "P2002" then
    .thrown (.badRequest (prismaTargetField e ++ " is already in use"))
  else .rethrown e

/-- `MealModel.handlePrismaError`: only `P2025` → `NotFound('Meal not
found')`; anything else returns and the caller re-throws the original. -/
def MealModel.handlePrismaError (e : PrismaError) : HandleResult :=
  if e.code = some "P2025" then .thrown (.notFound "Meal not found")
  else .rethrown e

/-- The `catch` block shared by the `UserModel` write operations:
`handlePrismaError(error); throw error`. -/
def UserModel.catchPrisma (e : PrismaError) : ModelError :=
  match UserModel.handlePrismaError e with
  | .thrown de => .domain de
  | .rethrown pe => .store pe

/-- JS truthiness of an optional string field: `undefined` and `''` are
falsy, every other string is truthy. -/
def jsTruthyStr : Option String → Bool
  | none => false
  | some s => !(s == "")

/-- `UserModel.findById`: `findUnique` by id, throwing
`NotFound('User not found')` on a null result. -/
def UserModel.findById (s : UserStore) (id : String) : Except ModelError UserRow :=
  match prismaUserFindById s id with
  | none => .error (.domain (.notFound "User not found"))
  | some u => .ok u

/-- `UserModel.findByEmail`: returns the row or `null`, never throws. -/
def UserModel.findByEmail (s : UserStore) (email : String) :
    Except ModelError (Option UserRow) :=
  .ok (prismaUserFindByEmail s email)

/-- `UserModel.findByPhone`: returns the row or `null`, never throws. -/
def UserModel.findByPhone (s : UserStore) (phone : String) :
    Except ModelError (Option UserRow) :=
  .ok (prismaUserFindByPhone s phone)

/-- `UserModel.findAll`: `findMany`. -/
def UserModel.findAll (s : UserStore) : Except ModelError (List UserRow) :=
  .ok s

/-- `MealModel.findById`: `findUnique` by id, throwing
`NotFound('Meal not found')` on a null result. -/
def MealModel.findById (s : MealStore) (id : String) : Except ModelError MealRow :=
  match prismaMealFindById s id with
  | none => .error (.domain (.notFound "Meal not found"))
  | some m => .ok m

/-- `UserModel.create`: hash the plaintext password, insert, and translate
store errors through `handlePrismaError`. -/
def UserModel.create (toHash : String → String) (s : UserStore)
    (newId : String) (now : Nat) (d : CreateUserData) : Except ModelError UserRow :=
  match prismaUserCreate s newId now { d with password := toHash d.password } with
  | .ok u => .ok u
  | .error e => .error (UserModel.catchPrisma e)

/-- The copy-then-conditionally-hash step of `UserModel.update`:
`const updateData = {...data}; if (updateData.password) updateData.password
= await Password.toHash(updateData.password)`. -/
def hashPasswordField (toHash : String → String) (d : UpdateUserData) :
    UpdateUserData :=
  if jsTruthyStr d.password then { d with password := d.password.map toHash }
  else d

/-- `UserModel.update`: conditionally hash the password field, run the store
update, and translate store errors through `handlePrismaError`. -/
def UserModel.update (toHash : String → String) (s : UserStore) (id : String)
    (d : UpdateUserData) : Except ModelError UserRow :=
  match prismaUserUpdate s id (hashPasswordField toHash d) with
  | .ok u => .ok u
  | .error e => .error (UserModel.catchPrisma e)

/-- Modelled from the spec: `UserModel.login` is absent from the available
sources (only its caller `UserController.login` and its unit tests exist).
Per spec §4.2 and the tests it looks up by email, fails with the same
invalid-credentials error (`BadRequestError('Invalid credentials')`) when no
user has the email or when `Password.compare` of the stored digest against
the supplied plaintext is false, and returns the user otherwise.  The
verification oracle `compareFn stored supplied` stands for the resolved
value of `Password.compare(stored, supplied)`. -/
def UserModel.login (compareFn : String → String → Bool) (s : UserStore)
    (email password : String) : Except ModelError UserRow :=
  match prismaUserFindByEmail s email with
  | none => .error (.domain (.badRequest "Invalid credentials"))
  | some u =>
    if compareFn u.password password then .ok u
    else .error (.domain (.badRequest "Invalid credentials"))

/-! ### Controllers (`user-controller.ts`)

A JS response object is an association list of key–value pairs; the rest
destructuring `const { password: _, ...userResponse } = user` removes the
`password` key.
-/

/-- The serialized own enumerable properties of a `User` entity. -/
def userToObj (u : UserRow) : List (String × String) :=
  [("id", u.id), ("email", u.email), ("name", u.name), ("phone", u.phone),
   ("password", u.password), ("createdAt", toString u.createdAt)]

/-- `const { password: _, ...userResponse } = user`. -/
def omitPassword (o : List (String × String)) : List (String × String) :=
  o.filter (fun kv => kv.1 != "password")

/-- Key lookup in a JS object. -/
def lookupKey (k : String) : List (String × String) → Option String
  | [] => none
  | (k1, v) :: rest => if k1 = k then some v else lookupKey k rest

/-- A JSON response body: an object or an array of objects. -/
inductive ResBody where
  | obj (o : List (String × String))
  | arr (os : List (List (String × String)))
deriving DecidableEq, Repr

/-- An HTTP response: status code and body. -/
structure HttpRes where
  status : Nat
  body : ResBody
deriving DecidableEq, Repr

/-- `UserController.register`: pre-check `findByEmail`, throw
`BadRequestError('Email already in use')` on a hit, otherwise create and
send 201 with the password field stripped. -/
def UserController.register (toHash : String → String) (s : UserStore)
    (newId : String) (now : Nat) (d : CreateUserData) : Except ModelError HttpRes :=
  match UserModel.findByEmail s d.email with
  | .error e => .error e
  | .ok (some _) => .error (.domain (.badRequest "Email already in use"))
  | .ok none =>
    match UserModel.create toHash s newId now d with
    | .error e => .error e
    | .ok u => .ok ⟨201, .obj (omitPassword (userToObj u))⟩

/-- `UserController.login`: delegate to `UserModel.login` and send 200 with
the password field stripped. -/
def UserController.login (compareFn : String → String → Bool) (s : UserStore)
    (email password : String) : Except ModelError HttpRes :=
  match UserModel.login compareFn s email password with
  | .error e => .error e
  | .ok u => .ok ⟨200, .obj (omitPassword (userToObj u))⟩

/-- `UserController.getById`: `findById`, then 200 with the password field
stripped. -/
def UserController.getById (s : UserStore) (id : String) : Except ModelError HttpRes :=
  match UserModel.findById s id with
  | .error e => .error e
  | .ok u => .ok ⟨200, .obj (omitPassword (userToObj u))⟩

/-- `UserController.getAll`: `findAll`, then 200 with every element's
password field stripped. -/
def UserController.getAll (s : UserStore) : Except ModelError HttpRes :=
  match UserModel.findAll s with
  | .error e => .error e
  | .ok us => .ok ⟨200, .arr (us.map (fun u => omitPassword (userToObj u)))⟩

/-- `UserController.update`: ensure the user exists (`findById`), update,
then 200 with the password field stripped. -/
def UserController.update (toHash : String → String) (s : UserStore)
    (id : String) (d : UpdateUserData) : Except ModelError HttpRes :=
  match UserModel.findById s id with
  | .error e => .error e
  | .ok _ =>
    match UserModel.update toHash s id d with
    | .error e => .error e
    | .ok u => .ok ⟨200, .obj (omitPassword (userToObj u))⟩

/-! ### Routing table (`app.ts`, `index-route.ts`, `user-route.ts`)

A route pattern is a list of path segments, each a literal or a `:name`
parameter.  `user-route.ts` registers `POST /`, `GET /`, `GET /:id`,
`PUT /:id`, `DELETE /:id`; `index-route.ts` mounts it at `/users`; `app.ts`
mounts the index router at `/api/v1` and also serves `GET /healthz`.
Requests matching no route reach the catch-all middleware, which raises
`NotFound` (404).
-/

/-- One segment of an Express route pattern. -/
inductive Seg where
  | lit (s : String)
  | par (s : String)
deriving DecidableEq, Repr

/-- A registered route: HTTP method and path pattern. -/
structure Route where
  method : String
  segs : List Seg
deriving DecidableEq, Repr

/-- The routes registered on `userRouter` in `user-route.ts`, in
registration order. -/
def userRouterRoutes : List Route :=
  [⟨"POST", []⟩, ⟨"GET", []⟩, ⟨"GET", [.par "id"]⟩,
   ⟨"PUT", [.par "id"]⟩, ⟨"DELETE", [.par "id"]⟩]

/-- `router.use(prefixSegs, subRouter)`: prefix every route. -/
def mountAt (pre : List String) (rs : List Route) : List Route :=
  rs.map (fun r => ⟨r.method, pre.map Seg.lit ++ r.segs⟩)

/-- The routes reachable from `app` in `app.ts`: `GET /healthz` plus the
index router (which mounts `userRouter` at `/users`) under `/api/v1`. -/
def appRoutes : List Route :=
  ⟨"GET", [Seg.lit "healthz"]⟩ :: mountAt ["api", "v1"] (mountAt ["users"] userRouterRoutes)

/-- Match a route pattern against a concrete segmented path. -/
def segsMatch : List Seg → List String → Bool
  | [], [] => true
  | Seg.lit s :: rs, x :: xs => s == x && segsMatch rs xs
  | Seg.par _ :: rs, _ :: xs => segsMatch rs xs
  | _, _ => false

/-- The first registered route matching a request, if any; a `none` result
falls through to the catch-all 404 middleware. -/
def matchRoute (m : String) (path : List String) : Option Route :=
  appRoutes.find? (fun r => r.method == m && segsMatch r.segs path)

/-! ### Concrete data used by witnesses and counterexamples -/

/-- A demonstration hashing oracle: appends a marker so digests are
distinguishable from plaintexts. -/
def demoHash (s : String) : String := s ++ "#d"

/-- A demonstration stored user row. -/
def demoUser : UserRow :=
  ⟨"u1", "a@b.com", "A", "111", "storedhash.salt", 0⟩

/-- An update payload whose password field is present but empty. -/
def emptyPwUpdate : UpdateUserData := ⟨none, none, none, some ""⟩

/-- A demonstration derivation function for the hasher witnesses: one byte
recording the peppered password's length. -/
def demoScrypt (s : List Char) (_salt : List Char) : List Nat := [s.length % 256]

/-- A demonstration 64-byte derivation function for the digest-shape
witness. -/
def demoScrypt64 (_s : List Char) (_salt : List Char) : List Nat := List.range 64

/-! ## Claim theorems -/

/-- C1: for every password `p`, `Password.compare (Password.toHash p) p` is
true, and for every `p'` distinct from `p` it is false — for any pepper, any
salt drawn without the `'.'` delimiter, and any derivation function whose
output bytes are bytes and which does not collide on the two peppered
plaintexts at this salt (the cryptographic idealization of `scrypt`). -/
theorem password_verify_roundtrip (scrypt : List Char → List Char → List Nat)
    (pepper p p' salt : List Char)
    (hsalt : '.' ∉ salt)
    (hb : ∀ b ∈ scrypt (p ++ pepper) salt, b < 256)
    (hb' : ∀ b ∈ scrypt (p' ++ pepper) salt, b < 256)
    (hdiff : scrypt (p ++ pepper) salt ≠ scrypt (p' ++ pepper) salt) :
    Password.compare scrypt pepper (Password.toHash scrypt pepper p salt) p = some true ∧
    Password.compare scrypt pepper (Password.toHash scrypt pepper p salt) p' = some false := by
  have hsplit := splitDot_toHash scrypt pepper p salt hsalt hb
  constructor
  · unfold Password.compare
    rw [hsplit]
    simp
  · have hne : bufToHex (scrypt (p ++ pepper) salt) ≠
        bufToHex (scrypt (p' ++ pepper) salt) :=
      fun e => hdiff (bufToHex_inj _ _ hb hb' e)
    unfold Password.compare
    rw [hsplit]
    simp [hne]

/-- Witness for C1 at a concrete derivation function, pepper, passwords and
salt. -/
theorem password_verify_roundtrip_witness :
    ('.' ∉ (['a', 'b'] : List Char)) ∧
    demoScrypt (['x'] ++ []) ['a', 'b'] ≠ demoScrypt (['x', 'y'] ++ []) ['a', 'b'] ∧
    Password.compare demoScrypt [] (Password.toHash demoScrypt [] ['x'] ['a', 'b']) ['x'] =
      some true ∧
    Password.compare demoScrypt [] (Password.toHash demoScrypt [] ['x'] ['a', 'b']) ['x', 'y'] =
      some false := by
  refine ⟨by decide, by decide, ?_, ?_⟩
  · exact (password_verify_roundtrip demoScrypt [] ['x'] ['x', 'y'] ['a', 'b']
      (by decide) (by decide) (by decide) (by decide)).1
  · exact (password_verify_roundtrip demoScrypt [] ['x'] ['x', 'y'] ['a', 'b']
      (by decide) (by decide) (by decide) (by decide)).2

/-- C10: every digest produced by `Password.toHash` has the shape
`<hex of the 64 derived bytes> '.' <hex of the 8 salt bytes>`: the salt
component is 16 characters and free of `'.'`, the derived component is 128
characters, and `Password.compare`'s split at `'.'` recovers exactly the two
components. -/
theorem toHash_digest_shape (scrypt : List Char → List Char → List Nat)
    (pepper p : List Char) (saltBytes : List Nat)
    (hlen : saltBytes.length = 8) (hsb : ∀ b ∈ saltBytes, b < 256)
    (hklen : (scrypt (p ++ pepper) (bufToHex saltBytes)).length = 64)
    (hkb : ∀ b ∈ scrypt (p ++ pepper) (bufToHex saltBytes), b < 256) :
    (bufToHex saltBytes).length = 16 ∧
    '.' ∉ bufToHex saltBytes ∧
    (bufToHex (scrypt (p ++ pepper) (bufToHex saltBytes))).length = 128 ∧
    splitDot (Password.toHash scrypt pepper p (bufToHex saltBytes)) =
      [bufToHex (scrypt (p ++ pepper) (bufToHex saltBytes)), bufToHex saltBytes] := by
  refine ⟨?_, dot_not_mem_bufToHex _ hsb, ?_, ?_⟩
  · rw [bufToHex_length, hlen]
  · rw [bufToHex_length, hklen]
  · exact splitDot_toHash scrypt pepper p _ (dot_not_mem_bufToHex _ hsb) hkb

/-- Witness for C10 at a concrete derivation function and salt bytes. -/
theorem toHash_digest_shape_witness :
    ([0, 1, 2, 3, 4, 5, 6, 7] : List Nat).length = 8 ∧
    (demoScrypt64 ([] ++ []) (bufToHex [0, 1, 2, 3, 4, 5, 6, 7])).length = 64 ∧
    (bufToHex ([0, 1, 2, 3, 4, 5, 6, 7] : List Nat)).length = 16 ∧
    splitDot (Password.toHash demoScrypt64 [] [] (bufToHex [0, 1, 2, 3, 4, 5, 6, 7])) =
      [bufToHex (demoScrypt64 ([] ++ []) (bufToHex [0, 1, 2, 3, 4, 5, 6, 7])),
       bufToHex [0, 1, 2, 3, 4, 5, 6, 7]] := by
  have h := toHash_digest_shape demoScrypt64 [] [] [0, 1, 2, 3, 4, 5, 6, 7]
    rfl (by decide) (by decide) (by decide)
  exact ⟨rfl, by decide, h.1, h.2.2.2⟩

/-! ### Helper lemmas about the store queries -/

lemma prismaUserFindById_eq_none (s : UserStore) (id : String) :
    prismaUserFindById s id = none ↔ ∀ u ∈ s, u.id ≠ id := by
  simp [prismaUserFindById, List.find?_eq_none]

lemma prismaUserFindByEmail_eq_none (s : UserStore) (email : String) :
    prismaUserFindByEmail s email = none ↔ ∀ u ∈ s, u.email ≠ email := by
  simp [prismaUserFindByEmail, List.find?_eq_none]

lemma prismaUserFindByPhone_eq_none (s : UserStore) (phone : String) :
    prismaUserFindByPhone s phone = none ↔ ∀ u ∈ s, u.phone ≠ phone := by
  simp [prismaUserFindByPhone, List.find?_eq_none]

lemma prismaMealFindById_eq_none (s : MealStore) (id : String) :
    prismaMealFindById s id = none ↔ ∀ m ∈ s, m.id ≠ id := by
  simp [prismaMealFindById, List.find?_eq_none]

lemma lookupKey_omitPassword (o : List (String × String)) :
    lookupKey "password" (omitPassword o) = none := by
  induction o with
  | nil => rfl
  | cons kv rest ih =>
    rcases kv with ⟨k, v⟩
    by_cases hk : k = "password"
    · simpa [omitPassword, hk] using ih
    · simpa [omitPassword, lookupKey, hk] using ih

/-- Whether a response body is free of any `password` key. -/
def resNoPassword : HttpRes → Prop
  | ⟨_, .obj o⟩ => lookupKey "password" o = none
  | ⟨_, .arr os⟩ => ∀ o ∈ os, lookupKey "password" o = none

/-- C5: `findById` (User and Meal) fails with `NotFound` exactly when no row
with the id exists and otherwise returns a row — never an absent value —
while `findByEmail`/`findByPhone` never fail and return an absent value
exactly when no row matches. -/
theorem findById_vs_findByUnique (s : UserStore) (ms : MealStore)
    (id mid email phone : String) :
    (UserModel.findById s id = .error (.domain (.notFound "User not found")) ↔
      ∀ u ∈ s, u.id ≠ id) ∧
    ((∃ u, UserModel.findById s id = .ok u) ∨
      UserModel.findById s id = .error (.domain (.notFound "User not found"))) ∧
    (MealModel.findById ms mid = .error (.domain (.notFound "Meal not found")) ↔
      ∀ m ∈ ms, m.id ≠ mid) ∧
    ((∃ m, MealModel.findById ms mid = .ok m) ∨
      MealModel.findById ms mid = .error (.domain (.notFound "Meal not found"))) ∧
    (∃ r, UserModel.findByEmail s email = .ok r) ∧
    (UserModel.findByEmail s email = .ok none ↔ ∀ u ∈ s, u.email ≠ email) ∧
    (∃ r, UserModel.findByPhone s phone = .ok r) ∧
    (UserModel.findByPhone s phone = .ok none ↔ ∀ u ∈ s, u.phone ≠ phone) := by
  refine ⟨?_, ?_, ?_, ?_, ⟨_, rfl⟩, ?_, ⟨_, rfl⟩, ?_⟩
  · rw [← prismaUserFindById_eq_none]
    unfold UserModel.findById
    rcases h : prismaUserFindById s id with _ | u <;> simp
  · unfold UserModel.findById
    rcases h : prismaUserFindById s id with _ | u
    · exact Or.inr rfl
    · exact Or.inl ⟨u, rfl⟩
  · rw [← prismaMealFindById_eq_none]
    unfold MealModel.findById
    rcases h : prismaMealFindById ms mid with _ | m <;> simp
  · unfold MealModel.findById
    rcases h : prismaMealFindById ms mid with _ | m
    · exact Or.inr rfl
    · exact Or.inl ⟨m, rfl⟩
  · rw [← prismaUserFindByEmail_eq_none]
    unfold UserModel.findByEmail
    simp
  · rw [← prismaUserFindByPhone_eq_none]
    unfold UserModel.findByPhone
    simp

/-- Witness for C5 at a concrete store and missing id/email. -/
theorem findById_vs_findByUnique_witness :
    UserModel.findById [demoUser] "nope" =
      .error (.domain (.notFound "User not found")) ∧
    UserModel.findByEmail [demoUser] "nope@x" = .ok none := by
  constructor
  · exact (findById_vs_findByUnique [demoUser] [] "nope" "" "nope@x" "").1.mpr
      (by decide)
  · exact (findById_vs_findByUnique [demoUser] [] "nope" "" "nope@x" "").2.2.2.2.2.1.mpr
      (by decide)

/-- C3: `UserModel.login` fails with the identical
`BadRequestError('Invalid credentials')` both when no user has the email and
when a user exists but password verification fails, so the two cases are
indistinguishable to the caller. -/
theorem login_invalid_credentials_indistinguishable
    (compareFn : String → String → Bool) (s : UserStore) (e p e1 p1 : String)
    (h1 : ∀ u ∈ s, u.email ≠ e)
    (h2 : ∀ u, prismaUserFindByEmail s e1 = some u → compareFn u.password p1 = false) :
    UserModel.login compareFn s e p =
      .error (.domain (.badRequest "Invalid credentials")) ∧
    UserModel.login compareFn s e1 p1 =
      .error (.domain (.badRequest "Invalid credentials")) := by
  constructor
  · unfold UserModel.login
    rw [(prismaUserFindByEmail_eq_none s e).mpr h1]
  · unfold UserModel.login
    rcases h : prismaUserFindByEmail s e1 with _ | u
    · rfl
    · simp [h2 u h]

/-- Witness for C3: a missing email and a wrong password against the same
store produce the same error value. -/
theorem login_invalid_credentials_indistinguishable_witness :
    (∀ u ∈ [demoUser], u.email ≠ "x@x") ∧
    UserModel.login (fun _ _ => false) [demoUser] "x@x" "pw" =
      .error (.domain (.badRequest "Invalid credentials")) ∧
    UserModel.login (fun _ _ => false) [demoUser] "a@b.com" "wrong" =
      .error (.domain (.badRequest "Invalid credentials")) := by
  refine ⟨by decide, ?_, ?_⟩
  · exact (login_invalid_credentials_indistinguishable (fun _ _ => false) [demoUser]
      "x@x" "pw" "a@b.com" "wrong" (by decide) (fun u _ => rfl)).1
  · exact (login_invalid_credentials_indistinguishable (fun _ _ => false) [demoUser]
      "x@x" "pw" "a@b.com" "wrong" (by decide) (fun u _ => rfl)).2

/-- C2: every user representation sent by the register, login, get-by-id,
get-all and update handlers has the password field stripped: whenever a
handler succeeds, its response body contains no `password` key. -/
theorem handlers_strip_password (toHash : String → String)
    (compareFn : String → String → Bool) (s : UserStore) (newId : String)
    (now : Nat) (cd : CreateUserData) (ud : UpdateUserData)
    (id email pw : String) :
    (∀ r, UserController.register toHash s newId now cd = .ok r → resNoPassword r) ∧
    (∀ r, UserController.login compareFn s email pw = .ok r → resNoPassword r) ∧
    (∀ r, UserController.getById s id = .ok r → resNoPassword r) ∧
    (∀ r, UserController.getAll s = .ok r → resNoPassword r) ∧
    (∀ r, UserController.update toHash s id ud = .ok r → resNoPassword r) := by
  refine ⟨?_, ?_, ?_, ?_, ?_⟩ <;> intro r hr
  · unfold UserController.register at hr
    split at hr
    · exact absurd hr (by simp)
    · exact absurd hr (by simp)
    · split at hr
      · exact absurd hr (by simp)
      · cases hr
        exact lookupKey_omitPassword _
  · unfold UserController.login at hr
    split at hr
    · exact absurd hr (by simp)
    · cases hr
      exact lookupKey_omitPassword _
  · unfold UserController.getById at hr
    split at hr
    · exact absurd hr (by simp)
    · cases hr
      exact lookupKey_omitPassword _
  · unfold UserController.getAll at hr
    split at hr
    · exact absurd hr (by simp)
    · cases hr
      intro o ho
      rcases List.mem_map.mp ho with ⟨u, _, rfl⟩
      exact lookupKey_omitPassword _
  · unfold UserController.update at hr
    split at hr
    · exact absurd hr (by simp)
    · split at hr
      · exact absurd hr (by simp)
      · cases hr
        exact lookupKey_omitPassword _

/-- Witness for C2: the get-all handler on a concrete store returns a body
whose objects contain no password key. -/
theorem handlers_strip_password_witness :
    UserController.getAll [demoUser] =
      .ok ⟨200, .arr [omitPassword (userToObj demoUser)]⟩ ∧
    resNoPassword ⟨200, .arr [omitPassword (userToObj demoUser)]⟩ := by
  constructor
  · rfl
  · exact (handlers_strip_password demoHash (fun _ _ => true) [demoUser] "u2" 0
      ⟨"e@x", "n", "222", "pw123456"⟩ emptyPwUpdate "u1" "a@b.com" "pw").2.2.2.1
      ⟨200, .arr [omitPassword (userToObj demoUser)]⟩ rfl

/-- C6 counterexample: a store-level error with the uniqueness-violation
code `P2002` raised by a Meal operation is NOT mapped to a
`BadRequestError`; `MealModel.handlePrismaError` lets it propagate to the
caller unchanged. -/
theorem meal_p2002_propagates :
    MealModel.handlePrismaError ⟨some "P2002", some ["planId"]⟩ =
      .rethrown ⟨some "P2002", some ["planId"]⟩ ∧
    MealModel.handlePrismaError ⟨some "P2002", some ["planId"]⟩ ≠
      .thrown (.badRequest "planId is already in use") := by
  exact ⟨rfl, by decide⟩

/-- C6 amended: for User operations `P2025` maps to `NotFound`, `P2002` maps
to `BadRequestError('<field> is already in use')`, and any other store error
propagates unchanged; for Meal operations only `P2025` maps to `NotFound`
and every other error — including `P2002` — propagates unchanged. -/
theorem prisma_error_translation (e : PrismaError) :
    (e.code = some "P2025" →
      UserModel.handlePrismaError e = .thrown (.notFound "User not found") ∧
      MealModel.handlePrismaError e = .thrown (.notFound "Meal not found")) ∧
    (e.code = some "P2002" →
      UserModel.handlePrismaError e =
        .thrown (.badRequest (prismaTargetField e ++ " is already in use")) ∧
      MealModel.handlePrismaError e = .rethrown e) ∧
    (e.code ≠ some "P2025" → e.code ≠ some "P2002" →
      UserModel.handlePrismaError e = .rethrown e ∧
      MealModel.handlePrismaError e = .rethrown e) := by
  refine ⟨?_, ?_, ?_⟩
  · intro h
    simp [UserModel.handlePrismaError, MealModel.handlePrismaError, h]
  · intro h
    simp [UserModel.handlePrismaError, MealModel.handlePrismaError, h]
  · intro h1 h2
    simp [UserModel.handlePrismaError, MealModel.handlePrismaError, h1, h2]

/-- Witness for C6 amended, at the two translated codes. -/
theorem prisma_error_translation_witness :
    (⟨some "P2025", none⟩ : PrismaError).code = some "P2025" ∧
    UserModel.handlePrismaError ⟨some "P2025", none⟩ =
      .thrown (.notFound "User not found") ∧
    (⟨some "P2002", some ["email"]⟩ : PrismaError).code = some "P2002" ∧
    MealModel.handlePrismaError ⟨some "P2002", some ["email"]⟩ =
      .rethrown ⟨some "P2002", some ["email"]⟩ := by
  refine ⟨rfl, ?_, rfl, ?_⟩
  · exact ((prisma_error_translation ⟨some "P2025", none⟩).1 rfl).1
  · exact ((prisma_error_translation ⟨some "P2002", some ["email"]⟩).2.1 rfl).2

/-- C4: the routing table built by `app.ts`, `index-route.ts` and
`user-route.ts` has no route for `POST /api/v1/users/login` — the request
falls through to the unmatched-route 404 handler — while
`POST /api/v1/users` does match a registered route. -/
theorem post_users_login_unrouted :
    matchRoute "POST" ["api", "v1", "users", "login"] = none ∧
    matchRoute "POST" ["api", "v1", "users"] =
      some ⟨"POST", [Seg.lit "api", Seg.lit "v1", Seg.lit "users"]⟩ := by
  exact ⟨rfl, rfl⟩

/-- C7 counterexample: a payload that contains a password field holding the
empty string is NOT re-hashed — the update persists the empty string
verbatim even though the digest of `""` differs from it. -/
theorem update_empty_password_not_rehashed :
    emptyPwUpdate.password = some "" ∧
    UserModel.update demoHash [demoUser] "u1" emptyPwUpdate =
      .ok ⟨"u1", "a@b.com", "A", "111", "", 0⟩ ∧
    demoHash "" ≠ "" := by
  exact ⟨rfl, rfl, by decide⟩

/-- C7 amended: `UserModel.update` re-hashes the password whenever the
payload contains a non-empty password field (persisting the digest), stores
an empty-string password verbatim, leaves the other supplied fields as
given, and fails with `NotFound` if no row with the id exists at write
time. -/
theorem update_rehash_spec (toHash : String → String) (s : UserStore)
    (id : String) (d : UpdateUserData) :
    ((∀ u ∈ s, u.id ≠ id) →
      UserModel.update toHash s id d =
        .error (.domain (.notFound "User not found"))) ∧
    (∀ u0 u1, prismaUserFindById s id = some u0 →
      UserModel.update toHash s id d = .ok u1 →
      u1.password = (match d.password with
        | none => u0.password
        | some pw => if pw = "" then "" else toHash pw) ∧
      u1.email = d.email.getD u0.email ∧
      u1.name = d.name.getD u0.name ∧
      u1.phone = d.phone.getD u0.phone ∧
      u1.id = u0.id ∧
      u1.createdAt = u0.createdAt) := by
  constructor
  · intro h
    have hn : prismaUserFindById s id = none :=
      (prismaUserFindById_eq_none s id).mpr h
    unfold UserModel.update prismaUserUpdate
    rw [hn]
    rfl
  · intro u0 u1 h0 h1
    unfold UserModel.update prismaUserUpdate at h1
    simp only [h0] at h1
    by_cases he : (s.any fun v =>
        v.id != id && v.email == (applyUserUpdate u0 (hashPasswordField toHash d)).email) = true
    · rw [if_pos he] at h1
      simp at h1
    · rw [if_neg he] at h1
      by_cases hp : (s.any fun v =>
          v.id != id && v.phone == (applyUserUpdate u0 (hashPasswordField toHash d)).phone) = true
      · rw [if_pos hp] at h1
        simp at h1
      · rw [if_neg hp] at h1
        have hu : applyUserUpdate u0 (hashPasswordField toHash d) = u1 := by
          simpa using h1
        subst hu
        rcases hd : d.password with _ | pw
        · simp [applyUserUpdate, hashPasswordField, jsTruthyStr, hd]
        · by_cases hpw : pw = ""
          · subst hpw
            simp [applyUserUpdate, hashPasswordField, jsTruthyStr, hd]
          · simp [applyUserUpdate, hashPasswordField, jsTruthyStr, hd, hpw]

/-- Witness for C7 amended: a non-empty password in the payload is persisted
as its digest. -/
theorem update_rehash_spec_witness :
    prismaUserFindById [demoUser] "u1" = some demoUser ∧
    UserModel.update demoHash [demoUser] "u1" ⟨none, none, none, some "newPassword1"⟩ =
      .ok ⟨"u1", "a@b.com", "A", "111", demoHash "newPassword1", 0⟩ ∧
    (⟨"u1", "a@b.com", "A", "111", demoHash "newPassword1", 0⟩ : UserRow).password =
      demoHash "newPassword1" := by
  refine ⟨rfl, rfl, ?_⟩
  have h := (update_rehash_spec demoHash [demoUser] "u1"
    ⟨none, none, none, some "newPassword1"⟩).2 demoUser
    ⟨"u1", "a@b.com", "A", "111", demoHash "newPassword1", 0⟩ rfl rfl
  exact h.1

/-- C9: `UserModel.update` tests the password field for truthiness, not
presence: with a payload whose password is the empty string the hashing
oracle is never consulted (the result does not depend on it) and a
successful update persists the empty string verbatim. -/
theorem update_password_truthiness (s : UserStore) (id : String)
    (d : UpdateUserData) (hd : d.password = some "") :
    (∀ f g : String → String, UserModel.update f s id d = UserModel.update g s id d) ∧
    (∀ (f : String → String) (u : UserRow),
      UserModel.update f s id d = .ok u → u.password = "") := by
  have hfix : ∀ f : String → String, hashPasswordField f d = d := by
    intro f
    unfold hashPasswordField
    rw [hd]
    simp [jsTruthyStr]
  constructor
  · intro f g
    unfold UserModel.update
    rw [hfix f, hfix g]
  · intro f u hu
    unfold UserModel.update prismaUserUpdate at hu
    rw [hfix f] at hu
    rcases h0 : prismaUserFindById s id with _ | u0
    · simp only [h0] at hu
      simp at hu
    · simp only [h0] at hu
      by_cases he : (s.any fun v =>
          v.id != id && v.email == (applyUserUpdate u0 d).email) = true
      · rw [if_pos he] at hu
        simp at hu
      · rw [if_neg he] at hu
        by_cases hp : (s.any fun v =>
            v.id != id && v.phone == (applyUserUpdate u0 d).phone) = true
        · rw [if_pos hp] at hu
          simp at hu
        · rw [if_neg hp] at hu
          have hu1 : applyUserUpdate u0 d = u := by simpa using hu
          rw [← hu1]
          simp [applyUserUpdate, hd]

/-- Witness for C9: with an empty-string password payload the stored
password is the empty string and the result is hash-oracle independent. -/
theorem update_password_truthiness_witness :
    emptyPwUpdate.password = some "" ∧
    UserModel.update demoHash [demoUser] "u1" emptyPwUpdate =
      UserModel.update (fun x => x) [demoUser] "u1" emptyPwUpdate := by
  refine ⟨rfl, ?_⟩
  exact (update_password_truthiness [demoUser] "u1" emptyPwUpdate rfl).1
    demoHash (fun x => x)

/-- C8: the registration pre-check covers only the email field —
`UserController.register` rejects a duplicate email with
`BadRequestError('Email already in use')` from the pre-check, while a
payload whose phone duplicates an existing user's phone (with a fresh
email) passes the pre-check and surfaces as the store-level translation
`BadRequestError('phone is already in use')`. -/
theorem register_precheck_email_only (toHash : String → String) (s : UserStore)
    (newId : String) (now : Nat) (d : CreateUserData) :
    ((∃ u ∈ s, u.email = d.email) →
      UserController.register toHash s newId now d =
        .error (.domain (.badRequest "Email already in use"))) ∧
    ((∀ u ∈ s, u.email ≠ d.email) → (∃ u ∈ s, u.phone = d.phone) →
      UserController.register toHash s newId now d =
        .error (.domain (.badRequest "phone is already in use"))) := by
  constructor
  · rintro ⟨u, hu, he⟩
    have hne : prismaUserFindByEmail s d.email ≠ none := by
      intro h
      exact (prismaUserFindByEmail_eq_none s d.email).mp h u hu he
    unfold UserController.register UserModel.findByEmail
    rcases h : prismaUserFindByEmail s d.email with _ | v
    · exact absurd h hne
    · simp [h]
  · intro hmail hphone
    have hnone : prismaUserFindByEmail s d.email = none :=
      (prismaUserFindByEmail_eq_none s d.email).mpr hmail
    have hA : (s.any fun u => u.email == d.email) = false := by
      simp only [List.any_eq_false]
      intro u hu
      simpa using hmail u hu
    have hB : (s.any fun u => u.phone == d.phone) = true := by
      rcases hphone with ⟨u, hu, hp⟩
      simp only [List.any_eq_true]
      exact ⟨u, hu, by simpa using hp⟩
    unfold UserController.register UserModel.findByEmail
    simp only [hnone]
    unfold UserModel.create prismaUserCreate
    simp [hA, hB, UserModel.catchPrisma, UserModel.handlePrismaError,
      prismaTargetField]

/-- Witness for C8: a concrete payload with a fresh email and a duplicated
phone is rejected by the store translation naming the phone field. -/
theorem register_precheck_email_only_witness :
    (∀ u ∈ [demoUser], u.email ≠ "new@b.com") ∧
    (∃ u ∈ [demoUser], u.phone = "111") ∧
    UserController.register demoHash [demoUser] "u2" 1
      ⟨"new@b.com", "B", "111", "pw123456"⟩ =
      .error (.domain (.badRequest "phone is already in use")) := by
  refine ⟨by decide, ⟨demoUser, by simp, rfl⟩, ?_⟩
  exact (register_precheck_email_only demoHash [demoUser] "u2" 1
    ⟨"new@b.com", "B", "111", "pw123456"⟩).2 (by decide) ⟨demoUser, by simp, rfl⟩
